import Mathlib

/-!
# Verification of the warehouse order-management server

Shallow embedding of `src/server.js` (an Express CRUD server over a JSON
order store, with picking/packing aggregation views) and proofs about the
specification's claims.

Embedding conventions:

* JavaScript objects are modelled as insertion-ordered association lists
  with unique keys (`jset` writes a key in place when present, appends
  otherwise, exactly like JS property assignment; `jlookup` is property
  access).  Prototype-chain lookups are outside the model's scope.
* JavaScript numbers appearing in arithmetic that can produce `NaN`
  (`parseInt`, `Math.max`) are modelled as `Option Int`, `none` standing
  for `NaN`; `jsMaxO` propagates `none` exactly as `Math.max` propagates
  `NaN`.  Monetary values (`price`, `order_total`) are modelled as exact
  rationals; IEEE-754 rounding is outside the model's scope.
* Orders and line items are modelled as structures carrying the fields the
  server reads plus an `extra` association list for the caller-supplied
  open attributes that the server passes through verbatim.  A field whose
  JS value may be `undefined` is an `Option`.
-/

namespace Warehouse

/-- Opaque JavaScript values used for the caller-supplied open attributes
that the server stores and copies but never inspects, and for the value of
the `products` field added by the packing view. -/
inductive JsVal : Type where
  | str : String → JsVal
  | num : ℚ → JsVal
  | nan : JsVal
  | bool : Bool → JsVal
  | null : JsVal
  | undef : JsVal
  | arr : List JsVal → JsVal
  | obj : List (String × JsVal) → JsVal

/-- JS property access `o[k]` on an insertion-ordered association list,
`none` when the key is absent (JS `undefined`). -/
def jlookup {α : Type} : List (String × α) → String → Option α
  | [], _ => none
  | (k, v) :: rest, key => if k = key then some v else jlookup rest key

/-- JS property assignment `o[k] = v`: overwrites in place when the key is
present, appends otherwise (JS objects keep the original insertion
position of an updated key). -/
def jset {α : Type} : List (String × α) → String → α → List (String × α)
  | [], key, v => [(key, v)]
  | (k, w) :: rest, key, v =>
      if k = key then (k, v) :: rest else (k, w) :: jset rest key v

/-! ## The JS `parseInt` builtin, radix 10

`parseInt(s, 10)` skips leading whitespace, accepts an optional sign and
then the longest prefix of decimal digits; it returns `NaN` (here `none`)
when no digit is found. -/

/-- Numeric value of a decimal digit character. -/
def charVal (c : Char) : ℕ := c.toNat - 48

/-- The digit-prefix part of `parseInt`: longest leading run of decimal
digits, `none` when it is empty. -/
def parseDigits (cs : List Char) : Option ℕ :=
  let ds := cs.takeWhile Char.isDigit
  if ds.isEmpty then none else some (ds.foldl (fun a c => 10 * a + charVal c) 0)

/-- `parseInt(·, 10)` over a character list. -/
def parseIntChars (cs : List Char) : Option ℤ :=
  let t := cs.dropWhile Char.isWhitespace
  match t with
  | [] => none
  | c :: rest =>
      if c = '-' then (parseDigits rest).map (fun n => -(n : ℤ))
      else if c = '+' then (parseDigits rest).map (fun n => (n : ℤ))
      else (parseDigits t).map (fun n => (n : ℤ))

/-- The JS builtin `parseInt(s, 10)`. -/
def parseIntJS (s : String) : Option ℤ :=
  parseIntChars s.data

/-- JS `Number.prototype.toString()` restricted to the values the server
produces: `NaN` prints as `"NaN"`, integers in decimal with a leading `-`
sign when negative. -/
def jsNumToString : Option ℤ → String
  | none => "NaN"
  | some i => if i < 0 then "-" ++ Nat.repr i.natAbs else Nat.repr i.toNat

/-- `Math.max` lifted to the `NaN`-aware integers: `NaN` absorbs. -/
def jsMaxO : Option ℤ → Option ℤ → Option ℤ
  | some a, some b => some (max a b)
  | _, _ => none

/-- Adding `1` to a possibly-`NaN` number (`NaN + 1` is `NaN`). -/
def jsAdd1 : Option ℤ → Option ℤ :=
  Option.map (· + 1)

/-! ### Decimal round trip: `parseIntJS (Nat.repr n) = some n` -/

/-- Reference decimal digit expansion, most significant digit first. -/
def decDigits (n : ℕ) : List Char :=
  if n < 10 then [Nat.digitChar n]
  else decDigits (n / 10) ++ [Nat.digitChar (n % 10)]
  termination_by n
  decreasing_by exact Nat.div_lt_self (by omega) (by omega)

def digitChars10 : List Char := ['0', '1', '2', '3', '4', '5', '6', '7', '8', '9']

/-! ## Data model

`src/server.js` stores orders as JSON objects.  The structures below carry
the fields the server reads by name; every other caller-supplied attribute
travels in `extra` (the entities are open, the server round-trips unknown
fields verbatim). -/

/-- One purchased product/kit within an order (`line_items` element).
`line_item_id` is `none` when the field is absent; an empty string is also
falsy for the `!item.line_item_id` test in the server.  `price` is `none`
when absent (the server then counts it as 0). -/
structure LineItem : Type where
  line_item_id : Option String
  product_id : Option String
  price : Option ℚ
  extra : List (String × JsVal)

/-- One stored order.  The server itself only ever writes the seven fields
below on creation; `extra` holds attributes that a later shallow-merge
update may have added. -/
structure Order : Type where
  order_id : String
  order_total : ℚ
  order_date : String
  shipping_address : Option JsVal
  customer_name : Option JsVal
  customer_email : Option JsVal
  line_items : List LineItem
  extra : List (String × JsVal)

/-- The request body of `POST /orders`.  `line_items` is `some items` when
the payload carries an array of line items and `none` when the field is
absent or not iterable (in which case the server's `reduce` call throws).
`order_id`, `order_total`, `order_date` and `extra` model caller-supplied
fields that the creation handler never reads. -/
structure CreatePayload : Type where
  shipping_address : Option JsVal := none
  customer_name : Option JsVal := none
  customer_email : Option JsVal := none
  line_items : Option (List LineItem) := none
  order_id : Option String := none
  order_total : Option ℚ := none
  order_date : Option String := none
  extra : List (String × JsVal) := []

/-- The request body of `PUT /orders/:orderId`: every field is optional,
`none` meaning absent from the JSON body.  Known fields are modelled
shape-preserving (e.g. a supplied `order_total` is numeric); arbitrary
additional keys travel in `extra`. -/
structure UpdatePayload : Type where
  order_id : Option String := none
  order_total : Option ℚ := none
  order_date : Option String := none
  shipping_address : Option JsVal := none
  customer_name : Option JsVal := none
  customer_email : Option JsVal := none
  line_items : Option (List LineItem) := none
  extra : List (String × JsVal) := []

/-- One physical product inside a product-mapping entry: `product_name`
plus whatever other attributes the mapping file carries. -/
structure Product : Type where
  product_name : String
  extra : List (String × JsVal)

/-- One value of the product-mapping object.  `products` is `none` when
the entry exists but has no `products` key (the picking handler tests
`mapping && mapping.products`). -/
structure MappingEntry : Type where
  products : Option (List Product)

/-- `product_mapping.json`: a JS object keyed by sellable product id. -/
abbrev ProductMapping : Type := List (String × MappingEntry)

/-- Truthiness of a possibly-absent string field (`!item.line_item_id`):
absent and the empty string are falsy. -/
def strTruthy : Option String → Bool
  | none => false
  | some s => ¬ s = ""

/-! ## Order creation (`app.post` handler, `src/server.js` lines 65-112) -/

/-- Line 70: `orders.reduce((max, order) => Math.max(max, parseInt(order.order_id, 10)), 0)`. -/
def maxOrderId (orders : List Order) : Option ℤ :=
  orders.foldl (fun m o => jsMaxO m (parseIntJS o.order_id)) (some 0)

/-- JS `String.prototype.replace` with a string pattern: replaces the
first occurrence only. -/
def replaceFirstChars (pat rep : List Char) : List Char → List Char
  | [] => []
  | c :: cs =>
      if pat.isPrefixOf (c :: cs) then rep ++ (c :: cs).drop pat.length
      else c :: replaceFirstChars pat rep cs

/-- JS `s.replace(pat, rep)` for string `pat` (first occurrence only; for
the empty `pat` on a nonempty string this inserts `rep` in front, as in
JS). -/
def jsReplaceFirst (s pat rep : String) : String :=
  ⟨replaceFirstChars pat.data rep.data s.data⟩

/-- Lines 82-83: the numeric reading of one line item's id.  A falsy
(absent or empty) `line_item_id` counts as `0`; otherwise the first
`"LI-"` is removed and the remainder is fed to `parseInt`, which can
produce `NaN` (`none`). -/
def liNum (li : LineItem) : Option ℤ :=
  if strTruthy li.line_item_id then
    parseIntJS (jsReplaceFirst (li.line_item_id.getD "") "LI-" "")
  else some 0

/-- Lines 80-87: the global maximum line-item number, a nested
`reduce`/`Math.max` over every line item of every stored order. -/
def maxLineItemId (orders : List Order) : Option ℤ :=
  orders.foldl
    (fun m o => jsMaxO m (o.line_items.foldl (fun mi li => jsMaxO mi (liNum li)) (some 0)))
    (some 0)

/-- Lines 90-96: walk the payload's line items in order; a falsy
`line_item_id` receives `LI-<counter>` from the incremented running
counter (spread keeps every other attribute), a truthy one is returned
untouched. -/
def assignLineItems (counter : Option ℤ) : List LineItem → List LineItem
  | [] => []
  | li :: rest =>
      if strTruthy li.line_item_id then li :: assignLineItems counter rest
      else
        { li with line_item_id := some ("LI-" ++ jsNumToString (jsAdd1 counter)) } ::
          assignLineItems (jsAdd1 counter) rest

/-- The creation handler's only failure: `newOrderData.line_items.reduce`
throws when the payload has no iterable `line_items`. -/
inductive CreateError : Type where
  | malformedInput : CreateError

/-- Lines 65-111: derive the complete new order from the current store,
the current ISO date string and the request body.  Pure part of the
handler; the caller appends the result to the store. -/
def createOrder (orders : List Order) (now : String) (p : CreatePayload) :
    Except CreateError Order :=
  match p.line_items with
  | none => .error .malformedInput
  | some items =>
      let newOrderId := jsNumToString (jsAdd1 (maxOrderId orders))
      let orderTotal := items.foldl (fun t li => t + li.price.getD 0) 0
      let newLineItems := assignLineItems (maxLineItemId orders) items
      .ok
        { order_id := newOrderId
          order_total := orderTotal
          order_date := now
          shipping_address := p.shipping_address
          customer_name := p.customer_name
          customer_email := p.customer_email
          line_items := newLineItems
          extra := [] }

/-- Line 109: `orders.push(newOrder)` — the store after a successful
creation. -/
def createState (orders : List Order) (now : String) (p : CreatePayload) :
    Except CreateError (List Order) :=
  (createOrder orders now p).map (fun o => orders ++ [o])

/-! ## Order update and deletion (lines 115-136) -/

/-- Line 121: `{ ...orders[index], ...req.body }` — field-by-field shallow
overwrite of the stored order by the payload's present fields. -/
def mergeOrder (o : Order) (p : UpdatePayload) : Order :=
  { order_id := p.order_id.getD o.order_id
    order_total := p.order_total.getD o.order_total
    order_date := p.order_date.getD o.order_date
    shipping_address := match p.shipping_address with
      | some v => some v
      | none => o.shipping_address
    customer_name := match p.customer_name with
      | some v => some v
      | none => o.customer_name
    customer_email := match p.customer_email with
      | some v => some v
      | none => o.customer_email
    line_items := p.line_items.getD o.line_items
    extra := p.extra.foldl (fun acc kv => jset acc kv.1 kv.2) o.extra }

/-- Lines 115-124: find the first order with the given id (`findIndex`),
replace it by the shallow merge; `none` is the 404 `Order not found`
response. -/
def updateOrders (oid : String) (p : UpdatePayload) : List Order → Option (List Order)
  | [] => none
  | o :: rest =>
      if o.order_id = oid then some (mergeOrder o p :: rest)
      else (updateOrders oid p rest).map (fun r => o :: r)

/-- Lines 127-136: remove the first order with the given id (`splice`),
returning the deleted order and the remaining store; `none` is the 404
response. -/
def deleteOrder (oid : String) : List Order → Option (Order × List Order)
  | [] => none
  | o :: rest =>
      if o.order_id = oid then some (o, rest)
      else (deleteOrder oid rest).map (fun pr => (pr.1, o :: pr.2))

/-! ## Picking and packing views (lines 141-181) -/

/-- Line 147: `productMapping[lineItem.product_id]` (an absent
`product_id` finds no entry). -/
def lookupMapping (pm : ProductMapping) (li : LineItem) : Option MappingEntry :=
  li.product_id.bind (fun pid => jlookup pm pid)

/-- Lines 149-151: bump `aggregated[product.product_name]` by one for each
product of a decomposition. -/
def bumpProducts (acc : List (String × ℕ)) (prods : List Product) : List (String × ℕ) :=
  prods.foldl (fun a p => jset a p.product_name ((jlookup a p.product_name).getD 0 + 1)) acc

/-- Lines 146-152: the loop body for one line item — when
`mapping && mapping.products` is truthy, tally the decomposition,
otherwise leave the tally alone. -/
def pickStep (pm : ProductMapping) (acc : List (String × ℕ)) (li : LineItem) :
    List (String × ℕ) :=
  match lookupMapping pm li with
  | some entry =>
      match entry.products with
      | some prods => bumpProducts acc prods
      | none => acc
  | none => acc

/-- Lines 143-154: the `aggregated` object after the nested `forEach`
loops, in property insertion order. -/
def pickAgg (pm : ProductMapping) (orders : List Order) : List (String × ℕ) :=
  orders.foldl (fun acc o => o.line_items.foldl (pickStep pm) acc) []

/-- Value of an all-digit character list, `none` otherwise. -/
def decNat? (cs : List Char) : Option ℕ :=
  if cs ≠ [] ∧ cs.all Char.isDigit then
    some (cs.foldl (fun a c => 10 * a + charVal c) 0)
  else none

/-- A canonical array index in the sense of JS property ordering: the
string is the decimal representation of a natural number below
2^32 - 1. -/
def arrayIndexVal (s : String) : Option ℕ :=
  match decNat? s.data with
  | some n => if Nat.repr n = s ∧ n < 4294967295 then some n else none
  | none => none

/-- Insert into a list sorted by ascending array-index value. -/
def insertByIndex (p : String × ℕ) : List (String × ℕ) → List (String × ℕ)
  | [] => [p]
  | q :: rest =>
      if (arrayIndexVal p.1).getD 0 ≤ (arrayIndexVal q.1).getD 0 then p :: q :: rest
      else q :: insertByIndex p rest

/-- Insertion sort by ascending array-index value. -/
def sortByIndex : List (String × ℕ) → List (String × ℕ)
  | [] => []
  | p :: rest => insertByIndex p (sortByIndex rest)

/-- JS `Object.entries` enumeration order on a string-keyed object:
canonical array-index keys first in ascending numeric order, then the
remaining keys in insertion order. -/
def jsEntriesOrder (l : List (String × ℕ)) : List (String × ℕ) :=
  sortByIndex (l.filter (fun p => (arrayIndexVal p.1).isSome)) ++
    l.filter (fun p => (arrayIndexVal p.1).isNone)

/-- Lines 141-163: the `GET /picking` response,
`Object.entries(aggregated)` mapped to `(product_name, quantity)`
records. -/
def picking (pm : ProductMapping) (orders : List Order) : List (String × ℕ) :=
  jsEntriesOrder (pickAgg pm orders)

/-- JSON shape of one physical product, for the value of the added
`products` field. -/
def productToJsVal (p : Product) : JsVal :=
  .obj (("product_name", .str p.product_name) :: p.extra)

/-- Lines 171-177: `{ ...lineItem, products: mapping ? mapping.products : [] }`.
Note that when the mapping entry exists but has no `products` key the
handler stores `undefined`, and that a pre-existing `products` attribute
is overwritten in place by the spread. -/
def packLineItem (pm : ProductMapping) (li : LineItem) : LineItem :=
  let v : JsVal :=
    match lookupMapping pm li with
    | some entry =>
        match entry.products with
        | some prods => .arr (prods.map productToJsVal)
        | none => .undef
    | none => .arr []
  { li with extra := jset li.extra "products" v }

/-- Lines 168-181: the `GET /packing` response — every order unchanged
except that each line item gains the `products` decomposition. -/
def packing (pm : ProductMapping) (orders : List Order) : List Order :=
  orders.map (fun o => { o with line_items := o.line_items.map (packLineItem pm) })

/-! ## Claim-side definitions

Definitions written from the specification's words, for comparison with
the code-derived definitions above. -/

/-- The numeric readings of all line-item ids in store order (the values
the nested `reduce` of lines 80-87 maximises over). -/
def lineNums (orders : List Order) : List (Option ℤ) :=
  orders.flatMap (fun o => o.line_items.map liNum)

/-- Modelled from the spec's words: a `line_item_id` "matching the pattern
`LI-<digits>`", yielding the parsed digits. -/
def matchesLIPattern (s : String) : Option ℕ :=
  if ("LI-".data).isPrefixOf s.data then decNat? (s.data.drop 3) else none

/-- Modelled from the spec's words: the global maximum line-item number
with every absent, unmatched or non-conforming id contributing 0. -/
def claimMaxLineItemNumber (orders : List Order) : ℕ :=
  ((orders.flatMap (fun o => o.line_items)).map
    (fun li => (li.line_item_id.bind matchesLIPattern).getD 0)).foldr max 0

/-! ## Sample data used by concrete witnesses and counterexamples -/

/-- A line item whose caller-supplied id is the bare digit string `"7"`:
truthy, no `LI-` prefix anywhere so `replace` leaves it alone, and
`parseInt("7")` is `7`. -/
def liPlainSeven : LineItem :=
  { line_item_id := some "7", product_id := none, price := none, extra := [] }

/-- A stored order holding `liPlainSeven`. -/
def orderPlainSeven : Order :=
  { order_id := "1", order_total := 0, order_date := "d", shipping_address := none
    customer_name := none, customer_email := none, line_items := [liPlainSeven], extra := [] }

/-- A stored order whose single line item has the conforming id `LI-5`. -/
def orderLIFive : Order :=
  { order_id := "1", order_total := 0, order_date := "d", shipping_address := none
    customer_name := none, customer_email := none
    line_items := [{ line_item_id := some "LI-5", product_id := none, price := none, extra := [] }]
    extra := [] }

/-- A creation payload with an empty `line_items` array. -/
def emptyItemsPayload : CreatePayload :=
  { line_items := some [] }

/-- A stored order whose single line item carries the non-conforming id
`"ABC"`: `parseInt("ABC")` is `NaN`. -/
def orderNonConforming : Order :=
  { order_id := "1", order_total := 0, order_date := "d", shipping_address := none
    customer_name := none, customer_email := none
    line_items := [{ line_item_id := some "ABC", product_id := none, price := none, extra := [] }]
    extra := [] }

/-- The all-absent line item, also the default for `List.getD`. -/
def dummyLineItem : LineItem :=
  { line_item_id := none, product_id := none, price := none, extra := [] }

/-- A line item with the caller-supplied id `"K"` and an extra field. -/
def kItem : LineItem :=
  { line_item_id := some "K", product_id := none, price := none
    extra := [("note", JsVal.str "keep")] }

/-- A creation payload with one unlabeled and one pre-labeled line item. -/
def mixedItemsPayload : CreatePayload :=
  { line_items := some [dummyLineItem, kItem] }

/-- The order `createOrder` derives from `mixedItemsPayload` over the
store `[orderLIFive]`. -/
def sampleCreatedOrder : Order :=
  { order_id := "2", order_total := 0, order_date := "d", shipping_address := none
    customer_name := none, customer_email := none
    line_items :=
      [{ line_item_id := some "LI-6", product_id := none, price := none, extra := [] }, kItem]
    extra := [] }

/-- Two line items, one with a price and one without. -/
def pricedItems : List LineItem :=
  [{ line_item_id := some "A", product_id := none, price := some 3, extra := [] },
    { line_item_id := some "B", product_id := none, price := none, extra := [] }]

/-- A creation payload carrying `pricedItems`. -/
def pricedPayload : CreatePayload :=
  { line_items := some pricedItems }

/-- An update payload touching `customer_email` and one extra key. -/
def demoUpdatePayload : UpdatePayload :=
  { customer_email := some (JsVal.str "new"), extra := [("note", JsVal.str "x")] }

/-- A physical product named `"B"`. -/
def prodB : Product :=
  { product_name := "B", extra := [] }

/-- A physical product whose name is the array-index string `"0"`. -/
def prodZero : Product :=
  { product_name := "0", extra := [] }

/-- A product mapping decomposing `"P"` into `B` then `"0"`. -/
def pmSample : ProductMapping :=
  [("P", { products := some [prodB, prodZero] })]

/-- A one-item order purchasing `"P"`. -/
def pickOrder : Order :=
  { order_id := "1", order_total := 0, order_date := "d", shipping_address := none
    customer_name := none, customer_email := none
    line_items := [{ line_item_id := some "L", product_id := some "P", price := none, extra := [] }]
    extra := [] }

/-- A line item that already carries a caller-supplied `products`
attribute (line items are open entities; the creation handler stores
extra attributes verbatim). -/
def cexPackItem : LineItem :=
  { line_item_id := some "L", product_id := some "P", price := none
    extra := [("products", JsVal.str "keep"), ("note", JsVal.str "n")] }

/-- An order holding `cexPackItem`. -/
def cexPackOrder : Order :=
  { order_id := "1", order_total := 0, order_date := "d", shipping_address := none
    customer_name := none, customer_email := none, line_items := [cexPackItem], extra := [] }

/-- Modelled from the spec's words: the decomposition a line item
contributes — the mapping entry's products, nothing when unmapped. -/
def claimPackedProducts (pm : ProductMapping) (li : LineItem) : List Product :=
  match li.product_id with
  | some pid =>
      match jlookup pm pid with
      | some e => e.products.getD []
      | none => []
  | none => []

/-- The product names one line item contributes to the picking tally:
its mapping entry's product names, nothing when unmapped or when the
entry has no `products`. -/
def decompLi (pm : ProductMapping) (li : LineItem) : List String :=
  match lookupMapping pm li with
  | some e =>
      match e.products with
      | some prods => prods.map Product.product_name
      | none => []
  | none => []

/-- The flattened sequence of physical product names contributed by every
line item of every order, in traversal order. -/
def decompNames (pm : ProductMapping) (orders : List Order) : List String :=
  orders.flatMap (fun o => o.line_items.flatMap (decompLi pm))

/-- Insertion order of first occurrence of each name. -/
def firstOcc (names : List String) : List String :=
  names.foldl (fun acc n => if n ∈ acc then acc else acc ++ [n]) []

/-- Tally a name sequence into an insertion-ordered association list, one
increment per occurrence (the loop body of the `aggregated` object). -/
def aggNamesFrom (acc : List (String × ℕ)) (names : List String) : List (String × ℕ) :=
  names.foldl (fun a n => jset a n ((jlookup a n).getD 0 + 1)) acc

/-- Modelled from the spec's words: the picking list in insertion order of
first occurrence, each name with its occurrence count. -/
def claimPickingList (pm : ProductMapping) (orders : List Order) : List (String × ℕ) :=
  (firstOcc (decompNames pm orders)).map (fun n => (n, (decompNames pm orders).count n))

/-! ## Store states reachable through the mutating handlers -/

/-- The `order_id` column of the store. -/
def storeIds (s : List Order) : List String :=
  s.map Order.order_id

/-- An id in the canonical shape the creation handler produces: the
decimal representation of a positive natural number. -/
def GoodId (id : String) : Prop :=
  ∃ n : ℕ, 1 ≤ n ∧ id = Nat.repr n

/-- Store states reachable from the empty store through the three
mutating handlers, restricted to update payloads that do not set
`order_id` (the shape every documented update uses). -/
inductive Reachable : List Order → Prop where
  | empty : Reachable []
  | create (s : List Order) (now : String) (p : CreatePayload) (o : Order) :
      Reachable s → createOrder s now p = .ok o → Reachable (s ++ [o])
  | update (s s2 : List Order) (oid : String) (p : UpdatePayload) :
      Reachable s → p.order_id = none → updateOrders oid p s = some s2 → Reachable s2
  | delete (s : List Order) (oid : String) (d : Order) (s2 : List Order) :
      Reachable s → deleteOrder oid s = some (d, s2) → Reachable s2

/-- The store invariant behind id uniqueness: every stored id is a
canonical positive decimal string and the ids are pairwise distinct. -/
def StoreInv (s : List Order) : Prop :=
  (∀ o ∈ s, GoodId o.order_id) ∧ (storeIds s).Nodup

/-- The order the creation handler derives on the empty store from the
empty-items payload. -/
def sampleFirstOrder : Order :=
  { order_id := "1", order_total := 0, order_date := "d1", shipping_address := none
    customer_name := none, customer_email := none, line_items := [], extra := [] }

/-- The order the creation handler derives over `[sampleFirstOrder]`. -/
def sampleSecondOrder : Order :=
  { order_id := "2", order_total := 0, order_date := "d2", shipping_address := none
    customer_name := none, customer_email := none, line_items := [], extra := [] }

/-- An update payload that sets `order_id` to `"2"`. -/
def updSetId : UpdatePayload :=
  { order_id := some "2" }

end Warehouse

/-! # Theorems -/

namespace Warehouse

theorem jlookup_jset_self {α : Type} (l : List (String × α)) (k : String) (v : α) :
    jlookup (jset l k v) k = some v := by
  induction l with
  | nil => simp [jset, jlookup]
  | cons p rest ih =>
      obtain ⟨k0, w⟩ := p
      by_cases h : k0 = k <;> simp [jset, jlookup, h, ih]

theorem jlookup_jset_ne {α : Type} (l : List (String × α)) (k k0 : String) (v : α)
    (h : k ≠ k0) : jlookup (jset l k v) k0 = jlookup l k0 := by
  induction l with
  | nil => simp [jset, jlookup, h]
  | cons p rest ih =>
      obtain ⟨k1, w⟩ := p
      by_cases h1 : k1 = k
      · subst h1; simp [jset, jlookup, h]
      · simp [jset, jlookup, h1, ih]

theorem jset_of_jlookup_none {α : Type} (l : List (String × α)) (k : String) (v : α)
    (h : jlookup l k = none) : jset l k v = l ++ [(k, v)] := by
  induction l with
  | nil => simp [jset]
  | cons p rest ih =>
      obtain ⟨k0, w⟩ := p
      by_cases h0 : k0 = k
      · simp [jlookup, h0] at h
      · simp [jlookup, h0] at h
        simp [jset, h0, ih h]

theorem decDigits_ne_nil (n : ℕ) : decDigits n ≠ [] := by
  rw [decDigits]
  split <;> simp

theorem digitChar_mem (k : ℕ) (hk : k < 10) : Nat.digitChar k ∈ digitChars10 := by
  interval_cases k <;> decide

theorem decDigits_subset (n : ℕ) : ∀ c ∈ decDigits n, c ∈ digitChars10 := by
  induction n using Nat.strong_induction_on with
  | _ n ih =>
      intro c hc
      rw [decDigits] at hc
      split at hc
      · next h =>
          simp at hc
          subst hc
          exact digitChar_mem n h
      · next h =>
          rw [List.mem_append] at hc
          rcases hc with hc | hc
          · exact ih (n / 10) (Nat.div_lt_self (by omega) (by omega)) c hc
          · simp at hc
            subst hc
            exact digitChar_mem (n % 10) (Nat.mod_lt _ (by omega))

theorem charVal_digitChar (k : ℕ) (hk : k < 10) : charVal (Nat.digitChar k) = k := by
  interval_cases k <;> decide

theorem decDigits_foldl (n : ℕ) :
    ∀ a : ℕ, (decDigits n).foldl (fun a c => 10 * a + charVal c) a =
      a * 10 ^ (decDigits n).length + n := by
  induction n using Nat.strong_induction_on with
  | _ n ih =>
      intro a
      rw [decDigits]
      split
      · next h =>
          simp [List.foldl, charVal_digitChar n h]
          ring
      · next h =>
          rw [List.foldl_append, List.length_append,
            ih (n / 10) (Nat.div_lt_self (by omega) (by omega)) a]
          simp [List.foldl, charVal_digitChar (n % 10) (Nat.mod_lt _ (by omega))]
          rw [pow_succ]
          have := Nat.div_add_mod n 10
          ring_nf
          omega

theorem mem_digitChars10_isDigit {c : Char} (hc : c ∈ digitChars10) : c.isDigit = true := by
  fin_cases hc <;> decide

theorem mem_digitChars10_not_ws {c : Char} (hc : c ∈ digitChars10) :
    c.isWhitespace = false := by
  fin_cases hc <;> decide

theorem mem_digitChars10_ne_signs {c : Char} (hc : c ∈ digitChars10) :
    c ≠ '-' ∧ c ≠ '+' := by
  fin_cases hc <;> decide

theorem dropWhile_ws_of_digits (l : List Char) (h : ∀ c ∈ l, c ∈ digitChars10) :
    l.dropWhile Char.isWhitespace = l := by
  cases l with
  | nil => rfl
  | cons c cs =>
      rw [List.dropWhile_cons_of_neg]
      simp [mem_digitChars10_not_ws (h c (by simp))]

theorem takeWhile_digits_of_digits (l : List Char) (h : ∀ c ∈ l, c ∈ digitChars10) :
    l.takeWhile Char.isDigit = l := by
  induction l with
  | nil => rfl
  | cons c cs ih =>
      rw [List.takeWhile_cons_of_pos]
      · rw [ih (fun d hd => h d (by simp [hd]))]
      · simp [mem_digitChars10_isDigit (h c (by simp))]

theorem parseDigits_of_digits (l : List Char) (hne : l ≠ [])
    (h : ∀ c ∈ l, c ∈ digitChars10) :
    parseDigits l = some (l.foldl (fun a c => 10 * a + charVal c) 0) := by
  unfold parseDigits
  rw [takeWhile_digits_of_digits l h]
  simp [List.isEmpty_iff, hne]

theorem parseIntChars_decDigits (n : ℕ) :
    parseIntChars (decDigits n) = some (n : ℤ) := by
  have hsub := decDigits_subset n
  have hne := decDigits_ne_nil n
  unfold parseIntChars
  rw [dropWhile_ws_of_digits _ hsub]
  cases hd : decDigits n with
  | nil => exact absurd hd hne
  | cons c cs =>
      have hc : c ∈ digitChars10 := hsub c (by rw [hd]; simp)
      have hsigns := mem_digitChars10_ne_signs hc
      simp only [hsigns.1, hsigns.2, if_false]
      rw [← hd, parseDigits_of_digits _ hne hsub]
      have := decDigits_foldl n 0
      simp at this
      simp [this]

theorem toDigitsCore_eq_decDigits :
    ∀ (fuel n : ℕ) (ds : List Char), n < fuel →
      Nat.toDigitsCore 10 fuel n ds = decDigits n ++ ds := by
  intro fuel
  induction fuel with
  | zero => intro n ds h; omega
  | succ fuel ih =>
      intro n ds h
      rw [Nat.toDigitsCore]
      by_cases h0 : n / 10 = 0
      · have h10 : n < 10 := by omega
        rw [if_pos h0, decDigits]
        rw [if_pos h10]
        have : n % 10 = n := Nat.mod_eq_of_lt h10
        simp [this]
      · rw [if_neg h0]
        have hlt : n / 10 < fuel := by
          have : n / 10 < n := Nat.div_lt_self (by omega) (by omega)
          omega
        rw [ih (n / 10) _ hlt]
        conv_rhs => rw [decDigits]
        have h10 : ¬ n < 10 := by omega
        rw [if_neg h10]
        simp

theorem repr_eq_decDigits (n : ℕ) : Nat.repr n = (decDigits n).asString := by
  show (Nat.toDigits 10 n).asString = (decDigits n).asString
  unfold Nat.toDigits
  rw [toDigitsCore_eq_decDigits (n + 1) n [] (by omega)]
  simp

/-- `parseInt` inverts the decimal printer: the key round-trip fact behind
order-id bookkeeping. -/
theorem parseIntJS_repr (n : ℕ) : parseIntJS (Nat.repr n) = some (n : ℤ) := by
  rw [repr_eq_decDigits]
  show parseIntChars (decDigits n) = some (n : ℤ)
  exact parseIntChars_decDigits n

theorem repr_injective {a b : ℕ} (h : Nat.repr a = Nat.repr b) : a = b := by
  have ha := parseIntJS_repr a
  have hb := parseIntJS_repr b
  rw [h, hb] at ha
  exact (by exact_mod_cast Option.some.inj ha : b = a).symm

theorem jsMaxO_none_left (x : Option ℤ) : jsMaxO none x = none := by
  cases x <;> rfl

theorem jsMaxO_none_right (x : Option ℤ) : jsMaxO x none = none := by
  cases x <;> rfl

theorem foldl_jsMaxO_from_none (l : List (Option ℤ)) : l.foldl jsMaxO none = none := by
  induction l with
  | nil => rfl
  | cons x xs ih => rw [List.foldl_cons, jsMaxO_none_left, ih]

theorem foldl_jsMaxO_of_mem_none (l : List (Option ℤ)) (h : none ∈ l) (x : Option ℤ) :
    l.foldl jsMaxO x = none := by
  induction l generalizing x with
  | nil => cases h
  | cons y ys ih =>
      rcases List.mem_cons.mp h with h | h
      · subst h
        rw [List.foldl_cons, jsMaxO_none_right, foldl_jsMaxO_from_none]
      · exact ih h _

theorem jsMaxO_assoc (a b c : Option ℤ) :
    jsMaxO (jsMaxO a b) c = jsMaxO a (jsMaxO b c) := by
  cases a <;> cases b <;> cases c <;> simp [jsMaxO, max_assoc]

theorem foldl_jsMaxO_shift (l : List (Option ℤ)) (x y : Option ℤ) :
    l.foldl jsMaxO (jsMaxO x y) = jsMaxO x (l.foldl jsMaxO y) := by
  induction l generalizing y with
  | nil => rfl
  | cons z zs ih => rw [List.foldl_cons, List.foldl_cons, jsMaxO_assoc, ih]

theorem foldl_jsMaxO_init_le (l : List (Option ℤ)) (a b : ℤ)
    (h : l.foldl jsMaxO (some a) = some b) : a ≤ b := by
  induction l generalizing a with
  | nil => simp at h; omega
  | cons x xs ih =>
      cases x with
      | none =>
          rw [List.foldl_cons, jsMaxO_none_right, foldl_jsMaxO_from_none] at h
          cases h
      | some v =>
          have := ih (max a v) (by simpa [jsMaxO] using h)
          omega

theorem foldr_max_shift {α : Type} [LinearOrder α] (l : List α) (a b : α) :
    l.foldr max (max a b) = max b (l.foldr max a) := by
  induction l with
  | nil => exact max_comm a b
  | cons x xs ih => rw [List.foldr_cons, List.foldr_cons, ih, max_left_comm]

theorem foldl_jsMaxO_some (l : List (Option ℤ)) (a : ℤ) (h : none ∉ l) :
    l.foldl jsMaxO (some a) = some ((l.map (fun x => x.getD 0)).foldr max a) := by
  induction l generalizing a with
  | nil => rfl
  | cons x xs ih =>
      cases x with
      | none => exact absurd (List.mem_cons_self none xs) h
      | some v =>
          rw [List.foldl_cons]
          show List.foldl jsMaxO (some (max a v)) xs = _
          rw [ih (max a v) (fun hm => h (List.mem_cons_of_mem _ hm))]
          rw [List.map_cons, List.foldr_cons, foldr_max_shift]
          rfl

theorem foldr_max_toNat (l : List ℤ) (h : ∀ x ∈ l, 0 ≤ x) (a : ℕ) :
    l.foldr max (a : ℤ) = ((l.map Int.toNat).foldr max a : ℕ) := by
  induction l with
  | nil => rfl
  | cons x xs ih =>
      rw [List.foldr_cons, ih (fun y hy => h y (List.mem_cons_of_mem _ hy)),
        List.map_cons, List.foldr_cons]
      have hx : 0 ≤ x := h x (List.mem_cons_self x xs)
      rw [Nat.cast_max]
      rw [Int.toNat_of_nonneg hx]

theorem foldr_max_toNat_zero (l : List ℤ) (h : ∀ x ∈ l, 0 ≤ x) :
    l.foldr max (0 : ℤ) = (((l.map Int.toNat).foldr max 0 : ℕ) : ℤ) := by
  simpa using foldr_max_toNat l h 0

theorem maxOrderId_eq_foldl_map (orders : List Order) :
    maxOrderId orders = (orders.map (fun o => parseIntJS o.order_id)).foldl jsMaxO (some 0) := by
  rw [maxOrderId, List.foldl_map]

theorem maxOrderId_of_nat_ids (orders : List Order)
    (hids : ∀ o ∈ orders, ∃ n : ℕ, parseIntJS o.order_id = some (n : ℤ)) :
    maxOrderId orders =
      some (((orders.map (fun o => ((parseIntJS o.order_id).getD 0).toNat)).foldr max 0 : ℕ) : ℤ) := by
  rw [maxOrderId_eq_foldl_map]
  have hnone : none ∉ orders.map (fun o => parseIntJS o.order_id) := by
    intro hm
    rcases List.mem_map.mp hm with ⟨o, ho, heq⟩
    rcases hids o ho with ⟨n, hn⟩
    rw [hn] at heq
    cases heq
  rw [foldl_jsMaxO_some _ 0 hnone]
  have hpos : ∀ x ∈ (orders.map (fun o => parseIntJS o.order_id)).map (fun x => x.getD 0), 0 ≤ x := by
    intro x hx
    rcases List.mem_map.mp hx with ⟨y, hy, hyx⟩
    rcases List.mem_map.mp hy with ⟨o, ho, hoy⟩
    rcases hids o ho with ⟨n, hn⟩
    rw [← hoy, hn] at hyx
    simp at hyx
    omega
  rw [foldr_max_toNat_zero _ hpos]
  congr 2
  rw [List.map_map, List.map_map]
  rfl

/-- C2.  Creating an order over a store whose `order_id`s all parse as
natural numbers assigns the decimal successor of their maximum (0 for the
empty store), so `"1"` on an empty store.  The hypothesis is the spec's
own data model: stored ids are decimal strings. -/
theorem createOrder_id_succ_max (orders : List Order) (now : String) (p : CreatePayload)
    (items : List LineItem) (hli : p.line_items = some items)
    (hids : ∀ o ∈ orders, ∃ n : ℕ, parseIntJS o.order_id = some (n : ℤ)) :
    ∃ o : Order, createOrder orders now p = .ok o ∧
      o.order_id =
        Nat.repr ((orders.map (fun q => ((parseIntJS q.order_id).getD 0).toNat)).foldr max 0 + 1) ∧
      (orders = [] → o.order_id = "1") := by
  refine ⟨_, by rw [createOrder, hli], ?_, ?_⟩
  · show jsNumToString (jsAdd1 (maxOrderId orders)) = _
    rw [maxOrderId_of_nat_ids orders hids]
    set K : ℕ := (orders.map (fun q => ((parseIntJS q.order_id).getD 0).toNat)).foldr max 0 with hK
    show jsNumToString (some ((K : ℤ) + 1)) = Nat.repr (K + 1)
    rw [jsNumToString]
    rw [if_neg (by omega)]
    congr 1
  · intro he
    subst he
    rfl

/-- Witness for C2 at the empty store: the new order receives id `"1"`. -/
theorem createOrder_id_succ_max_witness :
    ∃ o : Order, createOrder [] "2024-01-01" emptyItemsPayload = .ok o ∧
      o.order_id =
        Nat.repr ((([] : List Order).map (fun q => ((parseIntJS q.order_id).getD 0).toNat)).foldr max 0 + 1) ∧
      (([] : List Order) = [] → o.order_id = "1") :=
  createOrder_id_succ_max [] "2024-01-01" emptyItemsPayload [] rfl (by simp)

theorem maxLineItemId_aux_none (orders : List Order) :
    orders.foldl
      (fun m o => jsMaxO m (o.line_items.foldl (fun mi li => jsMaxO mi (liNum li)) (some 0)))
      none = none := by
  induction orders with
  | nil => rfl
  | cons o rest ih => rw [List.foldl_cons, jsMaxO_none_left, ih]

theorem maxLineItemId_aux_some (orders : List Order) :
    ∀ a : ℤ, 0 ≤ a →
      orders.foldl
        (fun m o => jsMaxO m (o.line_items.foldl (fun mi li => jsMaxO mi (liNum li)) (some 0)))
        (some a) = (lineNums orders).foldl jsMaxO (some a) := by
  induction orders with
  | nil => intro a _; rfl
  | cons o rest ih =>
      intro a ha
      rw [List.foldl_cons]
      have hinner : o.line_items.foldl (fun mi li => jsMaxO mi (liNum li)) (some 0) =
          (o.line_items.map liNum).foldl jsMaxO (some 0) := by
        rw [List.foldl_map]
      have hstep : jsMaxO (some a) ((o.line_items.map liNum).foldl jsMaxO (some 0)) =
          (o.line_items.map liNum).foldl jsMaxO (some a) := by
        rw [← foldl_jsMaxO_shift]
        have : jsMaxO (some a) (some 0) = some a := by
          simp [jsMaxO]
          omega
        rw [this]
      rw [hinner, hstep]
      have hflat : lineNums (o :: rest) = o.line_items.map liNum ++ lineNums rest := by
        simp [lineNums]
      rw [hflat, List.foldl_append]
      cases ht : (o.line_items.map liNum).foldl jsMaxO (some a) with
      | none => rw [maxLineItemId_aux_none, foldl_jsMaxO_from_none]
      | some b =>
          have hb : 0 ≤ b := le_trans ha (foldl_jsMaxO_init_le _ a b ht)
          exact ih b hb

theorem maxLineItemId_flat (orders : List Order) :
    maxLineItemId orders = (lineNums orders).foldl jsMaxO (some 0) := by
  rw [maxLineItemId]
  exact maxLineItemId_aux_some orders 0 le_rfl

/-- C3 (amended).  The global maximum line-item number treats a falsy
(absent or empty) `line_item_id` as 0, but a truthy one contributes
`parseInt` of the id with its first `"LI-"` removed: when every such
reading is a number the result is the maximum of the readings (floored at
0), and when any reading is `NaN` the whole maximum is `NaN` — a
non-conforming id poisons the result rather than counting as 0. -/
theorem maxLineItemId_nan_or_max (orders : List Order) :
    (none ∈ lineNums orders → maxLineItemId orders = none) ∧
    (none ∉ lineNums orders →
      maxLineItemId orders =
        some (((lineNums orders).map (fun x => x.getD 0)).foldr max 0)) := by
  constructor
  · intro h
    rw [maxLineItemId_flat]
    exact foldl_jsMaxO_of_mem_none _ h _
  · intro h
    rw [maxLineItemId_flat]
    exact foldl_jsMaxO_some _ 0 h

/-- Witness for C3 (amended): a store with id `LI-5` yields `some 5`, one
with the non-conforming id `ABC` yields `NaN`. -/
theorem maxLineItemId_nan_or_max_witness :
    (none ∈ lineNums [orderNonConforming] ∧ maxLineItemId [orderNonConforming] = none) ∧
    (none ∉ lineNums [orderLIFive] ∧
      maxLineItemId [orderLIFive] =
        some (((lineNums [orderLIFive]).map (fun x => x.getD 0)).foldr max 0)) :=
  ⟨⟨by decide, (maxLineItemId_nan_or_max [orderNonConforming]).1 (by decide)⟩,
    ⟨by decide, (maxLineItemId_nan_or_max [orderLIFive]).2 (by decide)⟩⟩

/-- C3 fails as stated: the claim says a `line_item_id` that does not
match `LI-<digits>` contributes 0 and never poisons the maximum, but the
code gives the bare id `"7"` the contribution 7 (`replace` finds no
`"LI-"`, `parseInt("7") = 7`), and the id `"ABC"` poisons the whole
maximum to `NaN` instead of counting as 0. -/
theorem maxLineItemId_counterexample :
    maxLineItemId [orderPlainSeven] = some 7 ∧
    claimMaxLineItemNumber [orderPlainSeven] = 0 ∧
    maxLineItemId [orderPlainSeven] ≠
      some ((claimMaxLineItemNumber [orderPlainSeven] : ℕ) : ℤ) ∧
    maxLineItemId [orderNonConforming] = none ∧
    claimMaxLineItemNumber [orderNonConforming] = 0 := by
  refine ⟨by decide, by decide, by decide, by decide, by decide⟩

theorem createOrder_ok (orders : List Order) (now : String) (p : CreatePayload)
    (items : List LineItem) (hli : p.line_items = some items) :
    createOrder orders now p = .ok
      { order_id := jsNumToString (jsAdd1 (maxOrderId orders))
        order_total := items.foldl (fun t li => t + li.price.getD 0) 0
        order_date := now
        shipping_address := p.shipping_address
        customer_name := p.customer_name
        customer_email := p.customer_email
        line_items := assignLineItems (maxLineItemId orders) items
        extra := [] } := by
  rw [createOrder, hli]

theorem assignLineItems_length (c : Option ℤ) (items : List LineItem) :
    (assignLineItems c items).length = items.length := by
  induction items generalizing c with
  | nil => rfl
  | cons li rest ih =>
      rw [assignLineItems]
      cases h : strTruthy li.line_item_id <;> simp [h, ih]

theorem assignLineItems_getD (items : List LineItem) :
    ∀ (m : ℤ) (i : ℕ), i < items.length →
      (strTruthy (items.getD i dummyLineItem).line_item_id = true →
        (assignLineItems (some m) items).getD i dummyLineItem = items.getD i dummyLineItem) ∧
      (strTruthy (items.getD i dummyLineItem).line_item_id = false →
        (assignLineItems (some m) items).getD i dummyLineItem =
          { items.getD i dummyLineItem with
            line_item_id := some ("LI-" ++ jsNumToString (some (m +
              ((items.take (i + 1)).countP (fun li => !(strTruthy li.line_item_id)) : ℕ)))) }) := by
  induction items with
  | nil =>
      intro m i hi
      simp at hi
  | cons li rest ih =>
      intro m i hi
      cases hb : strTruthy li.line_item_id with
      | true =>
          have hassign : assignLineItems (some m) (li :: rest) =
              li :: assignLineItems (some m) rest := by
            rw [assignLineItems, if_pos hb]
          cases i with
          | zero =>
              constructor
              · intro _
                rw [hassign]
                rfl
              · intro hfalse
                rw [List.getD_cons_zero, hb] at hfalse
                cases hfalse
          | succ i =>
              have hi2 : i < rest.length := by simpa using hi
              have := ih m i hi2
              rw [hassign]
              simpa [List.countP_cons, hb] using this
      | false =>
          have hassign : assignLineItems (some m) (li :: rest) =
              { li with line_item_id := some ("LI-" ++ jsNumToString (jsAdd1 (some m))) } ::
                assignLineItems (jsAdd1 (some m)) rest := by
            rw [assignLineItems, if_neg (by rw [hb]; exact Bool.false_ne_true)]
          cases i with
          | zero =>
              constructor
              · intro htrue
                rw [List.getD_cons_zero, hb] at htrue
                cases htrue
              · intro _
                rw [hassign, List.getD_cons_zero, List.getD_cons_zero]
                have hcount : ((li :: rest).take 1).countP
                    (fun li => !(strTruthy li.line_item_id)) = 1 := by
                  simp [List.countP_cons, hb]
                rw [hcount]
                show { li with line_item_id := some ("LI-" ++ jsNumToString (some (m + 1))) } = _
                norm_num
          | succ i =>
              have hi2 : i < rest.length := by simpa using hi
              have hrec := ih (m + 1) i hi2
              rw [hassign]
              have hcast : ∀ k : ℕ, m + 1 + (k : ℤ) = m + ((k + 1 : ℕ) : ℤ) := by
                intro k
                push_cast
                ring
              constructor
              · intro htrue
                rw [List.getD_cons_succ, List.getD_cons_succ]
                rw [List.getD_cons_succ] at htrue
                exact hrec.1 htrue
              · intro hfalse
                rw [List.getD_cons_succ, List.getD_cons_succ]
                rw [List.getD_cons_succ] at hfalse
                have hstep := hrec.2 hfalse
                rw [show jsAdd1 (some m) = some (m + 1) from rfl, hstep]
                rw [List.take_succ_cons, List.countP_cons]
                simp [hb, hcast]

/-- C4.  During creation the payload's line items are processed in their
original order: an item whose `line_item_id` is truthy is kept verbatim
(whatever its value), and the k-th item with a falsy id receives
`LI-<seed + k>` where the seed is the global maximum line-item number;
every other attribute of the item is preserved and the output order is
the payload order. -/
theorem createOrder_line_item_numbering (orders : List Order) (now : String)
    (p : CreatePayload) (items : List LineItem) (m : ℤ)
    (hli : p.line_items = some items) (hm : maxLineItemId orders = some m) :
    ∃ o : Order, createOrder orders now p = .ok o ∧
      o.line_items.length = items.length ∧
      ∀ i : ℕ, i < items.length →
        (strTruthy (items.getD i dummyLineItem).line_item_id = true →
          o.line_items.getD i dummyLineItem = items.getD i dummyLineItem) ∧
        (strTruthy (items.getD i dummyLineItem).line_item_id = false →
          o.line_items.getD i dummyLineItem =
            { items.getD i dummyLineItem with
              line_item_id := some ("LI-" ++ jsNumToString (some (m +
                ((items.take (i + 1)).countP (fun li => !(strTruthy li.line_item_id)) : ℕ)))) }) := by
  refine ⟨_, createOrder_ok orders now p items hli, ?_, ?_⟩
  · show (assignLineItems (maxLineItemId orders) items).length = _
    rw [hm]
    exact assignLineItems_length _ _
  · show ∀ i : ℕ, i < items.length → _
    intro i hi
    show (strTruthy _ = true →
        (assignLineItems (maxLineItemId orders) items).getD i dummyLineItem = _) ∧
      (strTruthy _ = false →
        (assignLineItems (maxLineItemId orders) items).getD i dummyLineItem = _)
    rw [hm]
    exact assignLineItems_getD items m i hi

/-- Witness for C4: over a store whose maximum line-item number is 5, the
payload `[unlabeled, labeled "K"]` yields ids `[LI-6, K]` in payload
order. -/
theorem createOrder_line_item_numbering_witness :
    ∃ o : Order, createOrder [orderLIFive] "d" mixedItemsPayload = .ok o ∧
      o.line_items.length = [dummyLineItem, kItem].length ∧
      ∀ i : ℕ, i < [dummyLineItem, kItem].length →
        (strTruthy ([dummyLineItem, kItem].getD i dummyLineItem).line_item_id = true →
          o.line_items.getD i dummyLineItem = [dummyLineItem, kItem].getD i dummyLineItem) ∧
        (strTruthy ([dummyLineItem, kItem].getD i dummyLineItem).line_item_id = false →
          o.line_items.getD i dummyLineItem =
            { [dummyLineItem, kItem].getD i dummyLineItem with
              line_item_id := some ("LI-" ++ jsNumToString (some ((5 : ℤ) +
                (([dummyLineItem, kItem].take (i + 1)).countP
                  (fun li => !(strTruthy li.line_item_id)) : ℕ)))) }) :=
  createOrder_line_item_numbering [orderLIFive] "d" mixedItemsPayload
    [dummyLineItem, kItem] 5 rfl (by decide)

theorem foldl_price_sum (items : List LineItem) :
    ∀ a : ℚ, items.foldl (fun t li => t + li.price.getD 0) a =
      a + (items.map (fun li => li.price.getD 0)).sum := by
  induction items with
  | nil => intro a; simp
  | cons li rest ih =>
      intro a
      rw [List.foldl_cons, ih, List.map_cons, List.sum_cons]
      ring

/-- C5.  The created order's total is the exact sum of the payload's
prices with an absent price counting 0, and an update never recomputes
it: after a merge the total is the stored one unless the update payload
itself carries an `order_total`, which is then taken verbatim. -/
theorem order_total_sum_and_update (orders : List Order) (now : String) (p : CreatePayload)
    (items : List LineItem) (hli : p.line_items = some items) :
    (∀ o : Order, createOrder orders now p = .ok o →
      o.order_total = (items.map (fun li => li.price.getD 0)).sum) ∧
    (∀ (o : Order) (q : UpdatePayload),
      (q.order_total = none → (mergeOrder o q).order_total = o.order_total) ∧
      (∀ t : ℚ, q.order_total = some t → (mergeOrder o q).order_total = t)) := by
  constructor
  · intro o hok
    rw [createOrder_ok orders now p items hli] at hok
    cases hok
    show items.foldl (fun t li => t + li.price.getD 0) 0 = _
    rw [foldl_price_sum]
    ring
  · intro o q
    constructor
    · intro hq
      show q.order_total.getD o.order_total = o.order_total
      rw [hq]
      rfl
    · intro t hq
      show q.order_total.getD o.order_total = t
      rw [hq]
      rfl

/-- Witness for C5 at a concrete two-item payload (prices 3 and absent). -/
theorem order_total_sum_and_update_witness :
    (∀ o : Order, createOrder [] "d" pricedPayload = .ok o →
      o.order_total = (pricedItems.map (fun li => li.price.getD 0)).sum) ∧
    (∀ (o : Order) (q : UpdatePayload),
      (q.order_total = none → (mergeOrder o q).order_total = o.order_total) ∧
      (∀ t : ℚ, q.order_total = some t → (mergeOrder o q).order_total = t)) :=
  order_total_sum_and_update [] "d" pricedPayload pricedItems rfl

theorem jlookup_eq_none_of_not_mem {α : Type} (l : List (String × α)) (k : String)
    (h : k ∉ l.map Prod.fst) : jlookup l k = none := by
  induction l with
  | nil => rfl
  | cons p rest ih =>
      rw [jlookup]
      rw [List.map_cons] at h
      rw [if_neg (fun he => h (by rw [he]; exact List.mem_cons_self _ _))]
      exact ih (fun hm => h (List.mem_cons_of_mem _ hm))

theorem jlookup_foldl_jset {α : Type} (ps : List (String × α)) :
    ∀ (base : List (String × α)), (ps.map Prod.fst).Nodup → ∀ k : String,
      jlookup (ps.foldl (fun acc kv => jset acc kv.1 kv.2) base) k =
        match jlookup ps k with
        | some v => some v
        | none => jlookup base k := by
  induction ps with
  | nil => intro base _ k; rfl
  | cons kv rest ih =>
      intro base hnd k
      obtain ⟨k0, v0⟩ := kv
      rw [List.map_cons, List.nodup_cons] at hnd
      rw [List.foldl_cons, ih (jset base k0 v0) hnd.2 k]
      by_cases hk : k0 = k
      · subst hk
        rw [jlookup_eq_none_of_not_mem rest k0 hnd.1]
        rw [jlookup_jset_self]
        rw [jlookup, if_pos rfl]
      · rw [jlookup, if_neg hk]
        cases hr : jlookup rest k with
        | some v => rfl
        | none => rw [jlookup_jset_ne base k0 k v0 hk]

/-- C6.  Update is a shallow merge: it fails exactly when no stored order
has the requested id; on success only the first matching order changes,
replaced by the field-by-field overwrite of the payload onto it —
`line_items` is replaced wholesale when present and untouched when
absent, the same for scalar fields, and every extra key present in the
payload wins over the stored one while absent keys keep their stored
value. -/
theorem update_shallow_merge_spec (orders : List Order) (oid : String) (p : UpdatePayload)
    (hkeys : (p.extra.map Prod.fst).Nodup) :
    (updateOrders oid p orders = none ↔ ∀ o ∈ orders, o.order_id ≠ oid) ∧
    (∀ s, updateOrders oid p orders = some s →
      ∃ pre o post, orders = pre ++ o :: post ∧ (∀ q ∈ pre, q.order_id ≠ oid) ∧
        o.order_id = oid ∧ s = pre ++ mergeOrder o p :: post) ∧
    (∀ o : Order,
      (p.line_items = none → (mergeOrder o p).line_items = o.line_items) ∧
      (∀ l, p.line_items = some l → (mergeOrder o p).line_items = l) ∧
      (p.customer_email = none → (mergeOrder o p).customer_email = o.customer_email) ∧
      (∀ v, p.customer_email = some v → (mergeOrder o p).customer_email = some v) ∧
      (∀ k, jlookup (mergeOrder o p).extra k =
        match jlookup p.extra k with
        | some v => some v
        | none => jlookup o.extra k)) := by
  refine ⟨?_, ?_, ?_⟩
  · induction orders with
    | nil => simp [updateOrders]
    | cons o rest ih =>
        rw [updateOrders]
        by_cases h : o.order_id = oid
        · simp [h]
        · rw [if_neg h]
          constructor
          · intro hm q hq
            rcases List.mem_cons.mp hq with hq | hq
            · subst hq
              exact h
            · cases hr : updateOrders oid p rest with
              | none => exact (ih.mp hr) q hq
              | some r =>
                  rw [hr] at hm
                  cases hm
          · intro hall
            have hnone : updateOrders oid p rest = none :=
              ih.mpr (fun q hq => hall q (List.mem_cons_of_mem _ hq))
            rw [hnone]
            rfl
  · induction orders with
    | nil => intro s hs; cases hs
    | cons o rest ih =>
        intro s hs
        rw [updateOrders] at hs
        by_cases h : o.order_id = oid
        · rw [if_pos h] at hs
          cases hs
          exact ⟨[], o, rest, rfl, by simp, h, rfl⟩
        · rw [if_neg h] at hs
          cases hr : updateOrders oid p rest with
          | none => rw [hr] at hs; cases hs
          | some r =>
              rw [hr] at hs
              cases hs
              rcases ih r hr with ⟨pre, q, post, hsplit, hpre, hq, hr2⟩
              refine ⟨o :: pre, q, post, by simp [hsplit], ?_, hq, by simp [hr2]⟩
              intro q2 hq2
              rcases List.mem_cons.mp hq2 with hq2 | hq2
              · subst hq2; exact h
              · exact hpre q2 hq2
  · intro o
    refine ⟨?_, ?_, ?_, ?_, ?_⟩
    · intro h
      show p.line_items.getD o.line_items = o.line_items
      rw [h]
      rfl
    · intro l h
      show p.line_items.getD o.line_items = l
      rw [h]
      rfl
    · intro h
      show (match p.customer_email with
        | some v => some v
        | none => o.customer_email) = o.customer_email
      rw [h]
    · intro v h
      show (match p.customer_email with
        | some v => some v
        | none => o.customer_email) = some v
      rw [h]
    · intro k
      show jlookup (p.extra.foldl (fun acc kv => jset acc kv.1 kv.2) o.extra) k = _
      rw [jlookup_foldl_jset p.extra o.extra hkeys k]
      cases jlookup p.extra k <;> rfl

/-- C7.  Creation throws exactly when the payload has no iterable
`line_items`; any payload with one succeeds, whatever its other fields. -/
theorem createOrder_malformed_iff (orders : List Order) (now : String) (p : CreatePayload) :
    (createOrder orders now p = .error .malformedInput ↔ p.line_items = none) ∧
    (∀ items, p.line_items = some items → ∃ o, createOrder orders now p = .ok o) := by
  constructor
  · constructor
    · intro h
      cases hp : p.line_items with
      | none => rfl
      | some items =>
          rw [createOrder_ok orders now p items hp] at h
          cases h
    · intro h
      rw [createOrder, h]
  · intro items h
    exact ⟨_, createOrder_ok orders now p items h⟩

/-- Witness for C6 at a one-order store and a payload updating
`customer_email` plus one extra key. -/
theorem update_shallow_merge_spec_witness :
    (updateOrders "1" demoUpdatePayload [orderLIFive] = none ↔
      ∀ o ∈ [orderLIFive], o.order_id ≠ "1") ∧
    (∀ s, updateOrders "1" demoUpdatePayload [orderLIFive] = some s →
      ∃ pre o post, [orderLIFive] = pre ++ o :: post ∧ (∀ q ∈ pre, q.order_id ≠ "1") ∧
        o.order_id = "1" ∧ s = pre ++ mergeOrder o demoUpdatePayload :: post) ∧
    (∀ o : Order,
      (demoUpdatePayload.line_items = none →
        (mergeOrder o demoUpdatePayload).line_items = o.line_items) ∧
      (∀ l, demoUpdatePayload.line_items = some l →
        (mergeOrder o demoUpdatePayload).line_items = l) ∧
      (demoUpdatePayload.customer_email = none →
        (mergeOrder o demoUpdatePayload).customer_email = o.customer_email) ∧
      (∀ v, demoUpdatePayload.customer_email = some v →
        (mergeOrder o demoUpdatePayload).customer_email = some v) ∧
      (∀ k, jlookup (mergeOrder o demoUpdatePayload).extra k =
        match jlookup demoUpdatePayload.extra k with
        | some v => some v
        | none => jlookup o.extra k)) :=
  update_shallow_merge_spec [orderLIFive] "1" demoUpdatePayload (by decide)

theorem assignLineItems_map_extra (c : Option ℤ) (items : List LineItem) :
    (assignLineItems c items).map LineItem.extra = items.map LineItem.extra := by
  induction items generalizing c with
  | nil => rfl
  | cons li rest ih =>
      rw [assignLineItems]
      cases h : strTruthy li.line_item_id <;> simp [h, ih]

theorem assignLineItems_map_product_id (c : Option ℤ) (items : List LineItem) :
    (assignLineItems c items).map LineItem.product_id = items.map LineItem.product_id := by
  induction items generalizing c with
  | nil => rfl
  | cons li rest ih =>
      rw [assignLineItems]
      cases h : strTruthy li.line_item_id <;> simp [h, ih]

theorem assignLineItems_map_price (c : Option ℤ) (items : List LineItem) :
    (assignLineItems c items).map LineItem.price = items.map LineItem.price := by
  induction items generalizing c with
  | nil => rfl
  | cons li rest ih =>
      rw [assignLineItems]
      cases h : strTruthy li.line_item_id <;> simp [h, ih]

/-- C10.  The created order is assembled from exactly the seven fields the
handler writes — derived id, total and date, the three copied customer
fields and the processed line items — with no extra top-level attribute
(`extra = []`); a caller-supplied `order_id`, `order_total`, `order_date`
or any other extra top-level payload field never influences the result,
while the extra attributes of each line item are preserved. -/
theorem createOrder_result_shape (orders : List Order) (now : String) (p : CreatePayload)
    (items : List LineItem) (hli : p.line_items = some items) :
    (∀ x y z e, createOrder orders now
        { p with order_id := x, order_total := y, order_date := z, extra := e } =
      createOrder orders now p) ∧
    ∃ o : Order, createOrder orders now p = .ok o ∧
      o.extra = [] ∧
      o.order_date = now ∧
      o.order_id = jsNumToString (jsAdd1 (maxOrderId orders)) ∧
      o.shipping_address = p.shipping_address ∧
      o.customer_name = p.customer_name ∧
      o.customer_email = p.customer_email ∧
      o.line_items.map LineItem.extra = items.map LineItem.extra ∧
      o.line_items.map LineItem.product_id = items.map LineItem.product_id ∧
      o.line_items.map LineItem.price = items.map LineItem.price := by
  constructor
  · intro x y z e
    rfl
  · refine ⟨_, createOrder_ok orders now p items hli, rfl, rfl, rfl, rfl, rfl, rfl, ?_, ?_, ?_⟩
    · exact assignLineItems_map_extra _ _
    · exact assignLineItems_map_product_id _ _
    · exact assignLineItems_map_price _ _

/-- Witness for C10 at a concrete payload. -/
theorem createOrder_result_shape_witness :
    (∀ x y z e, createOrder [orderLIFive] "d"
        { mixedItemsPayload with order_id := x, order_total := y, order_date := z, extra := e } =
      createOrder [orderLIFive] "d" mixedItemsPayload) ∧
    ∃ o : Order, createOrder [orderLIFive] "d" mixedItemsPayload = .ok o ∧
      o.extra = [] ∧
      o.order_date = "d" ∧
      o.order_id = jsNumToString (jsAdd1 (maxOrderId [orderLIFive])) ∧
      o.shipping_address = mixedItemsPayload.shipping_address ∧
      o.customer_name = mixedItemsPayload.customer_name ∧
      o.customer_email = mixedItemsPayload.customer_email ∧
      o.line_items.map LineItem.extra = [dummyLineItem, kItem].map LineItem.extra ∧
      o.line_items.map LineItem.product_id = [dummyLineItem, kItem].map LineItem.product_id ∧
      o.line_items.map LineItem.price = [dummyLineItem, kItem].map LineItem.price :=
  createOrder_result_shape [orderLIFive] "d" mixedItemsPayload [dummyLineItem, kItem] rfl

theorem jlookup_mem {α : Type} (l : List (String × α)) (k : String) (v : α)
    (h : jlookup l k = some v) : (k, v) ∈ l := by
  induction l with
  | nil => cases h
  | cons p rest ih =>
      obtain ⟨k0, w⟩ := p
      rw [jlookup] at h
      by_cases hk : k0 = k
      · rw [if_pos hk] at h
        cases h
        subst hk
        exact List.mem_cons_self _ _
      · rw [if_neg hk] at h
        exact List.mem_cons_of_mem _ (ih h)

theorem packLineItem_products_val (pm : ProductMapping) (li : LineItem)
    (hwf : ∀ kv ∈ pm, kv.2.products ≠ none) :
    packLineItem pm li =
      { li with
        extra := jset li.extra "products"
          (JsVal.arr ((claimPackedProducts pm li).map productToJsVal)) } := by
  cases hpi : li.product_id with
  | none =>
      have hlm : lookupMapping pm li = none := by
        simp [lookupMapping, hpi]
      simp only [packLineItem, hlm, claimPackedProducts, hpi, List.map_nil]
  | some pid =>
      cases hfind : jlookup pm pid with
      | none =>
          have hlm : lookupMapping pm li = none := by
            simp [lookupMapping, hpi, hfind]
          simp only [packLineItem, hlm, claimPackedProducts, hpi, hfind, List.map_nil]
      | some e =>
          cases hp : e.products with
          | none => exact absurd hp (hwf (pid, e) (jlookup_mem pm pid e hfind))
          | some prods =>
              have hlm : lookupMapping pm li = some e := by
                simp [lookupMapping, hpi, hfind]
              simp only [packLineItem, hlm, hp, claimPackedProducts, hpi, hfind,
                Option.getD_some]

theorem jset_eq_map_of_jlookup_some {α : Type} (l : List (String × α)) (k : String)
    (w v : α) (hnd : (l.map Prod.fst).Nodup) (hk : jlookup l k = some w) :
    jset l k v = l.map (fun kv => if kv.1 = k then (kv.1, v) else kv) := by
  induction l with
  | nil => cases hk
  | cons p rest ih =>
      obtain ⟨k0, w0⟩ := p
      rw [List.map_cons, List.nodup_cons] at hnd
      rw [jset, List.map_cons]
      by_cases h0 : k0 = k
      · subst h0
        rw [if_pos rfl, if_pos (show (k0, w0).1 = k0 from rfl)]
        have hrest : ∀ kv ∈ rest,
            (if kv.1 = k0 then (kv.1, v) else kv) = id kv := by
          intro kv hkv
          have hne : ¬ kv.1 = k0 := by
            intro he
            have hfst : kv.1 ∈ rest.map Prod.fst := List.mem_map_of_mem Prod.fst hkv
            rw [he] at hfst
            exact hnd.1 hfst
          simp [hne]
        rw [List.map_congr_left hrest, List.map_id]
      · rw [if_neg h0, if_neg (show ¬ (k0, w0).1 = k from h0)]
        rw [jlookup, if_neg h0] at hk
        congr 1
        exact ih hnd.2 hk

/-- C9 (amended).  The packing view returns every order, in store order,
with each line item's `products` attribute set to the full mapped product
sequence — or the empty sequence when the `product_id` is unmapped — and
every other line-item and order field unchanged.  When the line item has
no pre-existing `products` attribute, exactly one field is appended and
all originals are preserved; a pre-existing `products` attribute is
instead overwritten in place, its original value lost and no field added.
Hypotheses: mapping entries carry a `products` list (the mapping file's
documented shape) and line-item extra keys are unique (JSON object
keys). -/
theorem packing_products_spec (pm : ProductMapping) (orders : List Order)
    (hwf : ∀ kv ∈ pm, kv.2.products ≠ none)
    (hnd : ∀ o ∈ orders, ∀ li ∈ o.line_items, (li.extra.map Prod.fst).Nodup) :
    packing pm orders = orders.map (fun o =>
      { o with line_items := o.line_items.map (fun li =>
          { li with extra :=
              match jlookup li.extra "products" with
              | none => li.extra ++
                  [("products", JsVal.arr ((claimPackedProducts pm li).map productToJsVal))]
              | some _ => li.extra.map (fun kv =>
                  if kv.1 = "products" then
                    (kv.1, JsVal.arr ((claimPackedProducts pm li).map productToJsVal))
                  else kv) }) }) := by
  rw [packing]
  apply List.map_congr_left
  intro o ho
  congr 1
  apply List.map_congr_left
  intro li hli
  rw [packLineItem_products_val pm li hwf]
  cases hpl : jlookup li.extra "products" with
  | none =>
      congr 1
      rw [jset_of_jlookup_none li.extra "products" _ hpl]
  | some w =>
      congr 1
      rw [jset_eq_map_of_jlookup_some li.extra "products" w _ (hnd o ho li hli) hpl]

/-- Witness for C9 (amended) at the sample mapping over a store holding
one line item without a `products` attribute and one with it. -/
theorem packing_products_spec_witness :
    packing pmSample [pickOrder, cexPackOrder] = [pickOrder, cexPackOrder].map (fun o =>
      { o with line_items := o.line_items.map (fun li =>
          { li with extra :=
              match jlookup li.extra "products" with
              | none => li.extra ++
                  [("products", JsVal.arr ((claimPackedProducts pmSample li).map productToJsVal))]
              | some _ => li.extra.map (fun kv =>
                  if kv.1 = "products" then
                    (kv.1, JsVal.arr ((claimPackedProducts pmSample li).map productToJsVal))
                  else kv) }) }) :=
  packing_products_spec pmSample [pickOrder, cexPackOrder]
    (by
      rintro kv hkv
      rcases List.mem_singleton.mp hkv with rfl
      simp [pmSample])
    (by
      rintro o ho li hli
      rcases List.mem_cons.mp ho with rfl | ho2
      · rcases List.mem_singleton.mp hli with rfl
        decide
      · rcases List.mem_singleton.mp ho2 with rfl
        rcases List.mem_singleton.mp hli with rfl
        decide)

/-- C9 fails as stated: line items are open to caller-supplied extra
attributes stored verbatim, so a stored line item may already carry
`products`; the packing spread then overwrites that attribute in place —
its original value `"keep"` is lost and no field is added — contradicting
both "all original line-item fields are preserved" and "augmented by
exactly one added field". -/
theorem packing_products_overwrite_counterexample :
    jlookup cexPackItem.extra "products" = some (JsVal.str "keep") ∧
    packing pmSample [cexPackOrder] =
      [{ cexPackOrder with line_items :=
          [{ cexPackItem with extra :=
              [("products", JsVal.arr [productToJsVal prodB, productToJsVal prodZero]),
                ("note", JsVal.str "n")] }] }] ∧
    JsVal.arr [productToJsVal prodB, productToJsVal prodZero] ≠ JsVal.str "keep" ∧
    (packing pmSample [cexPackOrder]).map (fun o =>
        o.line_items.map (fun li => li.extra.map Prod.fst)) =
      [[["products", "note"]]] :=
  ⟨rfl, rfl, fun h => JsVal.noConfusion h, rfl⟩

theorem aggNamesFrom_append (acc : List (String × ℕ)) (xs ys : List String) :
    aggNamesFrom acc (xs ++ ys) = aggNamesFrom (aggNamesFrom acc xs) ys := by
  rw [aggNamesFrom, aggNamesFrom, aggNamesFrom, List.foldl_append]

theorem bumpProducts_eq_agg (acc : List (String × ℕ)) (prods : List Product) :
    bumpProducts acc prods = aggNamesFrom acc (prods.map Product.product_name) := by
  rw [aggNamesFrom, List.foldl_map]
  rfl

theorem pickStep_eq_agg (pm : ProductMapping) (acc : List (String × ℕ)) (li : LineItem) :
    pickStep pm acc li = aggNamesFrom acc (decompLi pm li) := by
  rw [pickStep, decompLi]
  cases lookupMapping pm li with
  | some e =>
      show (match e.products with
          | some prods => bumpProducts acc prods
          | none => acc) =
        aggNamesFrom acc (match e.products with
          | some prods => prods.map Product.product_name
          | none => [])
      cases e.products with
      | some prods => exact bumpProducts_eq_agg acc prods
      | none => rfl
  | none => rfl

theorem pickItems_eq_agg (pm : ProductMapping) (items : List LineItem) :
    ∀ acc : List (String × ℕ),
      items.foldl (pickStep pm) acc = aggNamesFrom acc (items.flatMap (decompLi pm)) := by
  induction items with
  | nil => intro acc; rfl
  | cons li rest ih =>
      intro acc
      rw [List.foldl_cons, List.flatMap_cons, aggNamesFrom_append]
      rw [pickStep_eq_agg pm acc li]
      exact ih _

theorem pickAgg_eq_agg (pm : ProductMapping) (orders : List Order) :
    pickAgg pm orders = aggNamesFrom [] (decompNames pm orders) := by
  suffices h : ∀ acc : List (String × ℕ),
      orders.foldl (fun acc o => o.line_items.foldl (pickStep pm) acc) acc =
        aggNamesFrom acc (decompNames pm orders) by
    exact h []
  induction orders with
  | nil => intro acc; rfl
  | cons o rest ih =>
      intro acc
      rw [List.foldl_cons]
      rw [show decompNames pm (o :: rest) =
          o.line_items.flatMap (decompLi pm) ++ decompNames pm rest by
        rw [decompNames, decompNames, List.flatMap_cons]]
      rw [aggNamesFrom_append, pickItems_eq_agg pm o.line_items acc]
      exact ih _

theorem mem_firstOcc_foldl (ns : List String) :
    ∀ (acc : List String) (x : String),
      (x ∈ ns.foldl (fun acc n => if n ∈ acc then acc else acc ++ [n]) acc) ↔
        x ∈ acc ∨ x ∈ ns := by
  induction ns with
  | nil => intro acc x; simp
  | cons m rest ih =>
      intro acc x
      rw [List.foldl_cons, ih]
      by_cases hm : m ∈ acc
      · rw [if_pos hm]
        constructor
        · rintro (h | h)
          · exact Or.inl h
          · exact Or.inr (List.mem_cons_of_mem _ h)
        · rintro (h | h)
          · exact Or.inl h
          · rcases List.mem_cons.mp h with h | h
            · subst h; exact Or.inl hm
            · exact Or.inr h
      · rw [if_neg hm]
        simp [List.mem_append, List.mem_cons]
        tauto

theorem mem_firstOcc (ns : List String) (x : String) : x ∈ firstOcc ns ↔ x ∈ ns := by
  rw [firstOcc, mem_firstOcc_foldl]
  simp

theorem nodup_firstOcc_foldl (ns : List String) :
    ∀ acc : List String, acc.Nodup →
      (ns.foldl (fun acc n => if n ∈ acc then acc else acc ++ [n]) acc).Nodup := by
  induction ns with
  | nil => intro acc hacc; exact hacc
  | cons m rest ih =>
      intro acc hacc
      rw [List.foldl_cons]
      by_cases hm : m ∈ acc
      · rw [if_pos hm]
        exact ih acc hacc
      · rw [if_neg hm]
        refine ih _ ?_
        rw [List.nodup_append]
        exact ⟨hacc, List.nodup_singleton m, by simpa [List.disjoint_singleton] using hm⟩

theorem nodup_firstOcc (ns : List String) : (firstOcc ns).Nodup :=
  nodup_firstOcc_foldl ns [] List.nodup_nil

theorem firstOcc_append_one (ns : List String) (n : String) :
    firstOcc (ns ++ [n]) =
      if n ∈ firstOcc ns then firstOcc ns else firstOcc ns ++ [n] := by
  rw [firstOcc, firstOcc, List.foldl_append]
  rfl

theorem jlookup_map_graph (l : List String) (g : String → ℕ) (n : String) :
    jlookup (l.map (fun m => (m, g m))) n = if n ∈ l then some (g n) else none := by
  induction l with
  | nil => simp [jlookup]
  | cons a rest ih =>
      rw [List.map_cons, jlookup]
      by_cases ha : a = n
      · subst ha
        simp
      · have hna : ¬ n = a := fun h => ha h.symm
        rw [if_neg ha, ih]
        simp [List.mem_cons, hna]

theorem jset_map_graph (l : List String) (g : String → ℕ) (n : String) (v : ℕ) :
    l.Nodup → n ∈ l →
      jset (l.map (fun m => (m, g m))) n v =
        l.map (fun m => (m, if m = n then v else g m)) := by
  induction l with
  | nil => intro _ hn; cases hn
  | cons a rest ih =>
      intro hnd hn
      rw [List.nodup_cons] at hnd
      rw [List.map_cons, List.map_cons, jset]
      by_cases ha : a = n
      · subst ha
        rw [if_pos rfl, if_pos rfl]
        congr 1
        apply List.map_congr_left
        intro m hm
        have hmn : ¬ m = a := fun h => hnd.1 (h ▸ hm)
        rw [if_neg hmn]
      · rw [if_neg ha, if_neg ha]
        congr 1
        refine ih hnd.2 ?_
        rcases List.mem_cons.mp hn with h | h
        · exact absurd h.symm ha
        · exact h

theorem aggNames_counts (ns : List String) :
    aggNamesFrom [] ns = (firstOcc ns).map (fun n => (n, ns.count n)) := by
  induction ns using List.reverseRecOn with
  | nil => rfl
  | append_singleton ns n ih =>
      rw [aggNamesFrom_append, ih]
      show jset _ n ((jlookup ((firstOcc ns).map (fun m => (m, ns.count m))) n).getD 0 + 1) = _
      rw [jlookup_map_graph, firstOcc_append_one]
      by_cases hm : n ∈ firstOcc ns
      · rw [if_pos hm, if_pos hm]
        rw [jset_map_graph _ _ _ _ (nodup_firstOcc ns) hm]
        apply List.map_congr_left
        intro m hmm
        by_cases hmn : m = n
        · subst hmn
          simp [List.count_append]
        · simp [hmn, List.count_append]
      · rw [if_neg hm, if_neg hm]
        have hlk : jlookup ((firstOcc ns).map (fun m => (m, ns.count m))) n = none := by
          rw [jlookup_map_graph, if_neg hm]
        rw [jset_of_jlookup_none _ _ _ hlk]
        rw [List.map_append]
        congr 1
        · apply List.map_congr_left
          intro m hmm
          have hmn : m ≠ n := fun h => hm (h ▸ hmm)
          simp [hmn, List.count_append]
        · have hc : ns.count n = 0 :=
            List.count_eq_zero.mpr (fun h => hm ((mem_firstOcc ns n).mpr h))
          simp [List.count_append, hc]

/-- C8 (amended).  The picking list tallies exactly one unit per
occurrence of a physical product name in the decomposition of any line
item across all orders, and unmapped line items contribute nothing; but
the emitted order is the JS object key order, not plain insertion order:
product names that are canonical array-index strings come first in
ascending numeric order, followed by the remaining names in insertion
order of first occurrence. -/
theorem picking_counts_and_key_order (pm : ProductMapping) (orders : List Order) :
    picking pm orders = jsEntriesOrder (claimPickingList pm orders) := by
  rw [picking, pickAgg_eq_agg, aggNames_counts, claimPickingList]

/-- C8 fails as stated: with the decomposition `[B, "0"]` the aggregated
object is built in insertion order `B` then `"0"`, but `Object.entries`
enumerates the array-index key `"0"` first, so the emitted list is not in
insertion order of first occurrence. -/
theorem picking_insertion_order_counterexample :
    picking pmSample [pickOrder] = [("0", 1), ("B", 1)] ∧
    claimPickingList pmSample [pickOrder] = [("B", 1), ("0", 1)] ∧
    picking pmSample [pickOrder] ≠ claimPickingList pmSample [pickOrder] :=
  ⟨by decide, by decide, by decide⟩

theorem newOrderId_repr (s : List Order)
    (hids : ∀ o ∈ s, ∃ n : ℕ, parseIntJS o.order_id = some (n : ℤ)) :
    jsNumToString (jsAdd1 (maxOrderId s)) =
      Nat.repr ((s.map (fun q => ((parseIntJS q.order_id).getD 0).toNat)).foldr max 0 + 1) := by
  rw [maxOrderId_of_nat_ids s hids]
  set K : ℕ := (s.map (fun q => ((parseIntJS q.order_id).getD 0).toNat)).foldr max 0 with hK
  show jsNumToString (some ((K : ℤ) + 1)) = Nat.repr (K + 1)
  rw [jsNumToString]
  rw [if_neg (by omega)]
  congr 1

theorem le_foldr_max_nat (l : List ℕ) (x : ℕ) (hx : x ∈ l) (a : ℕ) : x ≤ l.foldr max a := by
  induction l with
  | nil => cases hx
  | cons y ys ih =>
      rw [List.foldr_cons]
      rcases List.mem_cons.mp hx with h | h
      · subst h
        exact le_max_left _ _
      · exact le_trans (ih h) (le_max_right _ _)

theorem goodId_parse {id : String} (h : GoodId id) :
    ∃ n : ℕ, 1 ≤ n ∧ id = Nat.repr n ∧ parseIntJS id = some (n : ℤ) := by
  rcases h with ⟨n, hn, hid⟩
  exact ⟨n, hn, hid, by rw [hid]; exact parseIntJS_repr n⟩

theorem createOrder_fresh_id (s : List Order) (now : String) (p : CreatePayload) (o : Order)
    (hgood : ∀ q ∈ s, GoodId q.order_id) (hok : createOrder s now p = .ok o) :
    GoodId o.order_id ∧ o.order_id ∉ storeIds s := by
  have hids : ∀ q ∈ s, ∃ n : ℕ, parseIntJS q.order_id = some (n : ℤ) := by
    intro q hq
    rcases goodId_parse (hgood q hq) with ⟨n, _, _, hp⟩
    exact ⟨n, hp⟩
  cases hp : p.line_items with
  | none =>
      rw [createOrder, hp] at hok
      cases hok
  | some items =>
      rw [createOrder_ok s now p items hp] at hok
      cases hok
      show GoodId (jsNumToString (jsAdd1 (maxOrderId s))) ∧
        jsNumToString (jsAdd1 (maxOrderId s)) ∉ storeIds s
      rw [newOrderId_repr s hids]
      set K : ℕ := (s.map (fun q => ((parseIntJS q.order_id).getD 0).toNat)).foldr max 0 with hK
      constructor
      · exact ⟨K + 1, by omega, rfl⟩
      · intro hmem
        rcases List.mem_map.mp hmem with ⟨q, hq, hqid⟩
        rcases goodId_parse (hgood q hq) with ⟨n, hn1, hqn, hqp⟩
        have hn : n = K + 1 := repr_injective (by rw [← hqn, hqid])
        have hx : ((parseIntJS q.order_id).getD 0).toNat ∈
            s.map (fun q => ((parseIntJS q.order_id).getD 0).toNat) :=
          List.mem_map_of_mem _ hq
        have hxn : ((parseIntJS q.order_id).getD 0).toNat = n := by
          rw [hqp]
          simp
        rw [hxn] at hx
        have hle : n ≤ K := le_foldr_max_nat _ n hx 0
        omega

theorem updateOrders_ids (oid : String) (p : UpdatePayload) (hp : p.order_id = none) :
    ∀ (s s2 : List Order), updateOrders oid p s = some s2 → storeIds s2 = storeIds s := by
  intro s
  induction s with
  | nil => intro s2 h; cases h
  | cons o rest ih =>
      intro s2 h
      rw [updateOrders] at h
      by_cases ho : o.order_id = oid
      · rw [if_pos ho] at h
        cases h
        show (mergeOrder o p).order_id :: storeIds rest = o.order_id :: storeIds rest
        congr 1
        show p.order_id.getD o.order_id = o.order_id
        rw [hp]
        rfl
      · rw [if_neg ho] at h
        cases hr : updateOrders oid p rest with
        | none => rw [hr] at h; cases h
        | some r =>
            rw [hr] at h
            cases h
            show o.order_id :: storeIds r = o.order_id :: storeIds rest
            rw [ih r hr]

theorem deleteOrder_sublist (oid : String) :
    ∀ (s : List Order) (d : Order) (s2 : List Order),
      deleteOrder oid s = some (d, s2) → s2.Sublist s := by
  intro s
  induction s with
  | nil => intro d s2 h; cases h
  | cons o rest ih =>
      intro d s2 h
      rw [deleteOrder] at h
      by_cases ho : o.order_id = oid
      · rw [if_pos ho] at h
        cases h
        exact List.sublist_cons_self o rest
      · rw [if_neg ho] at h
        cases hr : deleteOrder oid rest with
        | none => rw [hr] at h; cases h
        | some pr =>
            rw [hr] at h
            cases h
            exact List.Sublist.cons₂ o (ih pr.1 pr.2 (by rw [hr]))

theorem reachable_storeInv (s : List Order) (h : Reachable s) : StoreInv s := by
  induction h with
  | empty => exact ⟨fun o ho => absurd ho (List.not_mem_nil o), List.nodup_nil⟩
  | create s now p o hs hok ih =>
      have hfresh := createOrder_fresh_id s now p o ih.1 hok
      constructor
      · intro q hq
        rcases List.mem_append.mp hq with hq | hq
        · exact ih.1 q hq
        · rw [List.mem_singleton.mp hq]
          exact hfresh.1
      · show (storeIds (s ++ [o])).Nodup
        rw [storeIds, List.map_append]
        rw [List.nodup_append]
        refine ⟨ih.2, List.nodup_singleton _, ?_⟩
        intro a ha hb
        rw [show (List.map Order.order_id [o]) = [o.order_id] from rfl] at hb
        rw [List.mem_singleton] at hb
        subst hb
        exact hfresh.2 ha
  | update s s2 oid p hs hp hupd ih =>
      have hids := updateOrders_ids oid p hp s s2 hupd
      constructor
      · intro q hq
        have hqm : q.order_id ∈ storeIds s := by
          rw [← hids]
          exact List.mem_map_of_mem _ hq
        rcases List.mem_map.mp hqm with ⟨q2, hq2, hqid⟩
        rw [← hqid]
        exact ih.1 q2 hq2
      · rw [show storeIds s2 = storeIds s from hids]
        exact ih.2
  | delete s oid d s2 hs hdel ih =>
      have hsub := deleteOrder_sublist oid s d s2 hdel
      constructor
      · intro q hq
        exact ih.1 q (hsub.subset hq)
      · exact List.Nodup.sublist (hsub.map Order.order_id) ih.2

/-- C1 (amended).  From the empty store, via creations, deletions and
updates whose payload does not set `order_id`, the stored ids stay
pairwise distinct, and a creation never assigns an id equal to one
currently stored (it assigns max-existing + 1 over the remaining orders).
The original claim's stronger guarantees fail on the code: after the
order holding the maximum id is deleted its id is reassigned to the next
created order, and an update payload carrying `order_id` can duplicate a
stored id. -/
theorem reachable_ids_nodup_and_create_fresh (s : List Order) (h : Reachable s) :
    (storeIds s).Nodup ∧
    ∀ (now : String) (p : CreatePayload) (o : Order),
      createOrder s now p = .ok o → o.order_id ∉ storeIds s := by
  have hinv := reachable_storeInv s h
  exact ⟨hinv.2, fun now p o hok => (createOrder_fresh_id s now p o hinv.1 hok).2⟩

/-- Witness for C1 (amended) at the reachable one-order store. -/
theorem reachable_ids_nodup_and_create_fresh_witness :
    (storeIds [sampleFirstOrder]).Nodup ∧
    ∀ (now : String) (p : CreatePayload) (o : Order),
      createOrder [sampleFirstOrder] now p = .ok o →
        o.order_id ∉ storeIds [sampleFirstOrder] :=
  reachable_ids_nodup_and_create_fresh [sampleFirstOrder]
    (Reachable.create [] "d1" emptyItemsPayload sampleFirstOrder Reachable.empty rfl)

/-- C1 fails as stated: ids are reused after deletion — creating twice
from the empty store yields ids `"1"` and `"2"`, deleting order `"2"`
(the maximum) and creating again yields `"2"` a second time — and an
update whose payload carries `order_id` makes two stored orders share id
`"2"`. -/
theorem order_id_reuse_counterexample :
    createOrder [] "d1" emptyItemsPayload = .ok sampleFirstOrder ∧
    createOrder [sampleFirstOrder] "d2" emptyItemsPayload = .ok sampleSecondOrder ∧
    deleteOrder "2" [sampleFirstOrder, sampleSecondOrder] =
      some (sampleSecondOrder, [sampleFirstOrder]) ∧
    (createOrder [sampleFirstOrder] "d3" emptyItemsPayload).map Order.order_id =
      .ok sampleSecondOrder.order_id ∧
    (updateOrders "1" updSetId [sampleFirstOrder, sampleSecondOrder]).map storeIds =
      some ["2", "2"] ∧
    ¬ (["2", "2"] : List String).Nodup :=
  ⟨rfl, rfl, rfl, rfl, rfl, by decide⟩

end Warehouse
